import Mathlib

/-!
Verification of `start.py` (a Whisper-API audio transcription pipeline)
against its natural-language specification.

The Python source is shallowly embedded:
* durations (milliseconds) and byte sizes are `Nat`;
* Python's true division together with `int(...)` truncation (all the
  quantities involved are nonnegative) is modelled with exact rational
  arithmetic and `Int.floor`;
* `math.ceil(a / b)` on nonnegative integers is embedded as the exact
  integer ceiling `(a + b - 1) / b` and proved equal to `⌈a / b⌉`;
* filenames and file contents are `List Char`;
* the effectful orchestrator `transcribe_audio` is modelled as a pure
  function of an environment that fixes the outcome of every external
  call (filesystem, audio decoder/encoder, remote API), threading the
  list of temporary files explicitly; Python's `try/except/finally`
  becomes explicit case analysis where each possible raise point is an
  environment outcome.
-/

namespace Raspoznavalka

/-- Shorthand: the character list of a string literal. -/
def chars (s : String) : List Char := s.data

/-! ### Chunk planning and splitting -/

/-- `MAX_CHUNK_SIZE = 20 * 1024 * 1024` (start.py line 12). -/
def MAX_CHUNK_SIZE : Nat := 20 * 1024 * 1024

/-- `get_chunk_duration(file_size)` (start.py lines 36–41):
`chunk_minutes = (MAX_CHUNK_SIZE / 1024 / 1024) * 0.8`;
`return int(chunk_minutes * 60 * 1000)`.  The argument `file_size` is
accepted but never used by the body. -/
def get_chunk_duration (file_size : Nat) : Int :=
  Int.floor (((MAX_CHUNK_SIZE : ℚ) / 1024 / 1024 * 0.8) * 60 * 1000)

/-- `math.ceil(total_duration / chunk_duration)` (start.py line 79),
as the exact integer ceiling. -/
def num_chunks (total_duration chunk_duration : Nat) : Nat :=
  (total_duration + chunk_duration - 1) / chunk_duration

/-- The windows cut by the loop of `split_audio` (start.py lines 77–97):
chunk `i` covers `[i * chunk_duration, min ((i+1) * chunk_duration, total_duration))`. -/
def split_audio (total_duration chunk_duration : Nat) : List (Nat × Nat) :=
  (List.range (num_chunks total_duration chunk_duration)).map
    (fun i => (i * chunk_duration, min ((i + 1) * chunk_duration) total_duration))

/-- The full splitter contract for total duration `D` and chunk duration `C`:
`ceil (D / C)` windows, window `i` starts at `i * C`, non-last windows end at
`(i + 1) * C` (length exactly `C`), the last window ends at `D` (length
`D - C * (count - 1)`), windows are non-degenerate, consecutive windows abut,
and the first window starts at `0` — so the windows tile `[0, D)`. -/
def SplitSpec (D C : Nat) : Prop :=
  (((split_audio D C).length : ℤ) = Int.ceil ((D : ℚ) / (C : ℚ)))
  ∧ (∀ i, ∀ hi : i < (split_audio D C).length,
      ((split_audio D C).get ⟨i, hi⟩).1 = i * C
      ∧ (i + 1 < (split_audio D C).length →
          ((split_audio D C).get ⟨i, hi⟩).2 = (i + 1) * C)
      ∧ (i = (split_audio D C).length - 1 → ((split_audio D C).get ⟨i, hi⟩).2 = D)
      ∧ ((split_audio D C).get ⟨i, hi⟩).1 < ((split_audio D C).get ⟨i, hi⟩).2)
  ∧ (∀ i, ∀ hi : i + 1 < (split_audio D C).length,
      ((split_audio D C).get ⟨i, Nat.lt_of_succ_lt hi⟩).2
        = ((split_audio D C).get ⟨i + 1, hi⟩).1)
  ∧ (∀ hne : 0 < (split_audio D C).length, ((split_audio D C).get ⟨0, hne⟩).1 = 0)
  ∧ (∀ hne : 0 < (split_audio D C).length,
      ((split_audio D C).get ⟨(split_audio D C).length - 1, by omega⟩).2
        - ((split_audio D C).get ⟨(split_audio D C).length - 1, by omega⟩).1
        = D - C * ((split_audio D C).length - 1))

/-! ### Filenames: `Path(...).suffix`, format sets, result numbering -/

/-- The decimal digit character for `d < 10` (`d ≥ 10` never occurs in use). -/
def digitChar (d : Nat) : Char :=
  if d = 0 then '0' else if d = 1 then '1' else if d = 2 then '2'
  else if d = 3 then '3' else if d = 4 then '4' else if d = 5 then '5'
  else if d = 6 then '6' else if d = 7 then '7' else if d = 8 then '8' else '9'

/-- Fuel-driven helper for `natDigits` (structural recursion so that the
kernel can evaluate it; the fuel is always sufficient). -/
def natDigitsAux : Nat → Nat → List Char
  | 0, _ => []
  | fuel + 1, n =>
    if n < 10 then [digitChar n]
    else natDigitsAux fuel (n / 10) ++ [digitChar (n % 10)]

/-- The decimal digit string of a natural number (no sign, no padding),
as produced by Python's `str`/format on a nonnegative int. -/
def natDigits (n : Nat) : List Char := natDigitsAux (n + 1) n

/-- Python `f"{n:03d}"` for a nonnegative `n`: zero-pad to at least 3 digits. -/
def pad3 (n : Nat) : List Char :=
  List.replicate (3 - (natDigits n).length) '0' ++ natDigits n

/-- Numeric value of an ASCII digit character. -/
def charVal (c : Char) : Nat := c.toNat - 48

/-- Python `int(...)` on a (nonempty) string of ASCII digits. -/
def parseDigits (ds : List Char) : Nat :=
  ds.foldl (fun a c => a * 10 + charVal c) 0

/-- `glob("result*.txt")` membership for a single (base) filename
(start.py line 18): name starts with `result` and ends with `.txt`. -/
def resultGlobMatch (f : List Char) : Bool :=
  (chars "result").isPrefixOf f && (chars ".txt").isSuffixOf f

/-- A match of the regex `result(\d+)\.txt` anchored at the head of `l`:
literal `result`, then a maximal nonempty digit run, then literal `.txt`;
returns the numeric value of the digit group. -/
def matchFrom (l : List Char) : Option Nat :=
  if (chars "result").isPrefixOf l then
    let rest := l.drop 6
    let ds := rest.takeWhile Char.isDigit
    if !ds.isEmpty && (chars ".txt").isPrefixOf (rest.drop ds.length) then
      some (parseDigits ds)
    else none
  else none

/-- `re.search(r'result(\d+)\.txt', filename)` (start.py line 23): the
leftmost match of the pattern anywhere in the string, as `int(group(1))`. -/
def searchResultNum : List Char → Option Nat
  | [] => none
  | c :: cs =>
    match matchFrom (c :: cs) with
    | some n => some n
    | none => searchResultNum cs

/-- Python `max` over a list of naturals (used only on nonempty lists). -/
def maxList (l : List Nat) : Nat := l.foldl Nat.max 0

/-- `get_next_file_number()` (start.py lines 15–27), over the list of (base)
filenames present in the results directory: glob `result*.txt`; `"001"` if
none; else 1 + max of the regex groups (or 1 if no regex match), formatted
`%03d`. -/
def get_next_file_number (files : List (List Char)) : List Char :=
  let existing := files.filter resultGlobMatch
  if existing.isEmpty then chars "001"
  else
    let numbers := existing.filterMap searchResultNum
    let next := if numbers.isEmpty then 1 else maxList numbers + 1
    pad3 next

/-- The numeric value behind `get_next_file_number` (specification-side
characterisation: 1 + max matched number, or 1). -/
def nextNum (files : List (List Char)) : Nat :=
  let existing := files.filter resultGlobMatch
  if existing.isEmpty then 1
  else
    let numbers := existing.filterMap searchResultNum
    if numbers.isEmpty then 1 else maxList numbers + 1

/-- `output_filename = f"result{file_number}.txt"` (start.py line 168). -/
def output_filename (files : List (List Char)) : List Char :=
  chars "result" ++ get_next_file_number files ++ chars ".txt"

/-- `Path(name).suffix`: the substring from the last `.` on, provided that
dot is neither the first character nor the last; otherwise empty. -/
def pathSuffix (name : List Char) : List Char :=
  match name.reverse.findIdx? (fun c => c == '.') with
  | none => []
  | some j =>
    let i := name.length - 1 - j
    if 0 < i ∧ i + 1 < name.length then name.drop i else []

/-- The extension set accepted directly by the OpenAI API
(start.py line 31). -/
def supported_formats : List (List Char) :=
  [chars ".flac", chars ".m4a", chars ".mp3", chars ".mp4", chars ".mpeg",
   chars ".mpga", chars ".oga", chars ".ogg", chars ".wav", chars ".webm"]

/-- `is_supported_openai_format(filename)` (start.py lines 30–33). -/
def is_supported_openai_format (filename : List Char) : Bool :=
  supported_formats.contains ((pathSuffix filename).map Char.toLower)

/-- The extension set accepted for listing (start.py line 200). -/
def listing_supported_formats : List (List Char) :=
  [chars ".aac", chars ".flac", chars ".m4a", chars ".mp3", chars ".mp4",
   chars ".mpeg", chars ".mpga", chars ".oga", chars ".ogg", chars ".wav",
   chars ".webm"]

/-- The filter of `list_audio_files()` (start.py lines 200–207), over the
list of filenames present in the audio directory. -/
def list_audio_files (dir_files : List (List Char)) : List (List Char) :=
  dir_files.filter
    (fun file => listing_supported_formats.contains ((pathSuffix file).map Char.toLower))

/-! ### The orchestrator, modelled over an environment of external outcomes -/

/-- Outcome of the body of `convert_to_mp3` (start.py lines 44–60):
`failDecode` — `AudioSegment.from_file` raises before the temporary file
exists; `failExport` — the temporary file is created and then
`audio.export` raises; `ok` — conversion succeeds.  In the two failure
cases the exception is caught inside `convert_to_mp3` and `None` is
returned. -/
inductive ConvOutcome
  | ok
  | failDecode
  | failExport
deriving DecidableEq

/-- Outcome of `split_audio`'s export loop in a run: `ok n` — all `n` chunk
files are exported and returned; `raiseAfter k` — `k` chunk files were
exported and then an export raises (the exception propagates out of
`split_audio`). -/
inductive SplitOutcome
  | ok (n : Nat)
  | raiseAfter (k : Nat)
deriving DecidableEq

/-- Environment fixing every external outcome of one `transcribe_audio` run.
Temporary files are identified by allocation order (`Nat`); `remote c` is the
response of the transcription API for chunk file `c`. -/
structure Env where
  file_exists : Bool
  audio_filename : List Char
  results_files : List (List Char)
  conv : ConvOutcome
  split : SplitOutcome
  remote : Nat → Except (List Char) (List Char)

/-- `transcribe_chunk` (start.py lines 106–117): the remote call either
returns text or raises; an exception is caught at this boundary, logged, and
`None` is returned. -/
def transcribe_chunk (remote : Nat → Except (List Char) (List Char))
    (chunk_path : Nat) : Option (List Char) :=
  match remote chunk_path with
  | Except.ok t => some t
  | Except.error _ => none

/-- `convert_to_mp3` (start.py lines 44–60) as observed by the orchestrator:
the returned path (if any) and the temporary files the call leaves on disk.
`tmp` is the path the freshly created temporary file gets. -/
def convert_to_mp3 (out : ConvOutcome) (tmp : Nat) : Option Nat × List Nat :=
  match out with
  | ConvOutcome.failDecode => (none, [])
  | ConvOutcome.failExport => (none, [tmp])
  | ConvOutcome.ok => (some tmp, [tmp])

/-- The per-chunk loop of `transcribe_audio` (start.py lines 153–161):
append the text of each chunk whose transcription succeeded, skip
(`continue`) the chunks whose transcription returned `None`. -/
def transcribeLoop (f : Nat → Option (List Char)) : List Nat → List (List Char)
  | [] => []
  | c :: cs =>
    match f c with
    | none => transcribeLoop f cs
    | some t => t :: transcribeLoop f cs

/-- Python `" ".join(transcriptions)` (start.py line 164). -/
def join_space : List (List Char) → List Char
  | [] => []
  | [x] => x
  | x :: y :: xs => x ++ ' ' :: join_space (y :: xs)

/-- Observable outcome of one `transcribe_audio` run: the returned value,
the content written to the result file (if the run reached the write), the
chunk files submitted to the API in order, and the temporary files still on
disk after the `finally` cleanup. -/
structure RunResult where
  ret : Option (List Char)
  written : Option (List Char)
  calls : List Nat
  leaked : List Nat
deriving DecidableEq

/-- The part of `transcribe_audio` from `chunks = split_audio(...)` on
(start.py lines 147–175), given the files already on disk, the current
`temp_files` list and the next fresh temporary path.  A raise inside
`split_audio` propagates to the outer handler: the run returns `None` and
the `finally` block removes exactly the paths recorded in `temp_files`. -/
def transcribe_audio_after_format (env : Env) (disk temp_files : List Nat)
    (ctr : Nat) : RunResult :=
  match env.split with
  | SplitOutcome.raiseAfter k =>
    let created := (List.range k).map (fun i => ctr + i)
    { ret := none, written := none, calls := [],
      leaked := (disk ++ created).filter (fun f => !(temp_files.contains f)) }
  | SplitOutcome.ok n =>
    let chunks := (List.range n).map (fun i => ctr + i)
    let temps := temp_files ++ chunks
    let transcriptions := transcribeLoop (transcribe_chunk env.remote) chunks
    let full_transcription := join_space transcriptions
    { ret := some (output_filename env.results_files),
      written := some full_transcription,
      calls := chunks,
      leaked := (disk ++ chunks).filter (fun f => !(temps.contains f)) }

/-- `transcribe_audio` (start.py lines 120–188) over an outcome environment.
The body runs inside `try/except/finally`: a missing input file returns
`None`; an unsupported format triggers `convert_to_mp3`, whose `None` result
aborts the run; every exit path ends in the `finally` block, which removes
from disk exactly the paths recorded in `temp_files`. -/
def transcribe_audio (env : Env) : RunResult :=
  if env.file_exists = false then
    { ret := none, written := none, calls := [], leaked := [] }
  else if is_supported_openai_format env.audio_filename then
    transcribe_audio_after_format env [] [] 0
  else
    match convert_to_mp3 env.conv 0 with
    | (none, created) =>
      { ret := none, written := none, calls := [], leaked := created }
    | (some converted_path, created) =>
      transcribe_audio_after_format env created [converted_path] 1

/-- Concrete environment refuting C3: the source needs transcoding and
`audio.export` raises inside `convert_to_mp3` after the temporary file was
created. -/
def env_c3 : Env :=
  { file_exists := true, audio_filename := chars "clip.aac", results_files := [],
    conv := ConvOutcome.failExport, split := SplitOutcome.ok 0,
    remote := fun _ => Except.error [] }

/-- Concrete environment refuting C4: source `talk.mp3`, empty results
directory, one chunk, successful transcription. -/
def env_c4 : Env :=
  { file_exists := true, audio_filename := chars "talk.mp3", results_files := [],
    conv := ConvOutcome.ok, split := SplitOutcome.ok 1,
    remote := fun _ => Except.ok (chars "hi") }

/-- Concrete environment for the C3 witness: transcoding succeeds, two
chunks, the second chunk's transcription fails. -/
def env_c3w : Env :=
  { file_exists := true, audio_filename := chars "clip.aac", results_files := [],
    conv := ConvOutcome.ok, split := SplitOutcome.ok 2,
    remote := fun c => if c = 2 then Except.error (chars "quota") else Except.ok (chars "ok") }

/-- Concrete environment for the C5 witness: two chunks, the second one's
remote call fails. -/
def env_c5 : Env :=
  { file_exists := true, audio_filename := chars "talk.mp3", results_files := [],
    conv := ConvOutcome.ok, split := SplitOutcome.ok 2,
    remote := fun c => if c = 1 then Except.error (chars "net") else Except.ok (chars "ok") }

/-- Concrete environment for the C6 witness: unsupported format and a
decoder failure inside `convert_to_mp3`. -/
def env_c6 : Env :=
  { file_exists := true, audio_filename := chars "clip.aac", results_files := [],
    conv := ConvOutcome.failDecode, split := SplitOutcome.ok 3,
    remote := fun _ => Except.ok (chars "ok") }

/-- Concrete environment for the C7 witness: three chunks, every remote
call fails. -/
def env_c7 : Env :=
  { file_exists := true, audio_filename := chars "talk.mp3", results_files := [],
    conv := ConvOutcome.ok, split := SplitOutcome.ok 3,
    remote := fun _ => Except.error (chars "down") }

/-- Concrete environment for the C10 witness: zero-duration audio, hence
zero chunks. -/
def env_c10 : Env :=
  { file_exists := true, audio_filename := chars "talk.mp3", results_files := [],
    conv := ConvOutcome.ok, split := SplitOutcome.ok 0,
    remote := fun _ => Except.ok (chars "ok") }

/-! ### Theorems: arithmetic of the chunk planner and splitter -/

theorem num_chunks_mul_ge (D C : Nat) (hC : 0 < C) : D ≤ C * num_chunks D C := by
  unfold num_chunks
  have h := Nat.div_add_mod (D + C - 1) C
  have h2 : (D + C - 1) % C < C := Nat.mod_lt _ hC
  generalize hq : (D + C - 1) / C = q at h ⊢
  generalize hr : (D + C - 1) % C = r at h h2
  generalize hA : C * q = A at h ⊢
  omega

theorem num_chunks_pred_mul_lt (D C : Nat) (hC : 0 < C) (hpos : 0 < num_chunks D C) :
    C * (num_chunks D C - 1) < D := by
  unfold num_chunks at hpos ⊢
  have h := Nat.div_add_mod (D + C - 1) C
  have h2 : (D + C - 1) % C < C := Nat.mod_lt _ hC
  generalize hq : (D + C - 1) / C = q at h hpos ⊢
  obtain ⟨m, rfl⟩ : ∃ m, q = m + 1 := ⟨q - 1, by omega⟩
  have hms : C * (m + 1) = C * m + C := Nat.mul_succ C m
  rw [hms] at h
  simp only [Nat.add_sub_cancel]
  generalize hr : (D + C - 1) % C = r at h h2
  generalize hB : C * m = B at h ⊢
  omega

theorem num_chunks_eq_zero (C : Nat) : num_chunks 0 C = 0 := by
  unfold num_chunks
  rcases Nat.eq_zero_or_pos C with h | h
  · simp [h]
  · exact Nat.div_eq_of_lt (by omega)

theorem num_chunks_pos (D C : Nat) (hC : 0 < C) (hD : 0 < D) : 0 < num_chunks D C := by
  rcases Nat.eq_zero_or_pos (num_chunks D C) with h | h
  · have := num_chunks_mul_ge D C hC
    rw [h] at this
    omega
  · exact h

theorem num_chunks_eq_ceil (D C : Nat) (hC : 0 < C) :
    (num_chunks D C : ℤ) = Int.ceil ((D : ℚ) / (C : ℚ)) := by
  have hCQ : (0 : ℚ) < (C : ℚ) := by exact_mod_cast hC
  symm
  rw [Int.ceil_eq_iff]
  constructor
  · rcases Nat.eq_zero_or_pos D with hD | hD
    · subst hD
      have h0 := num_chunks_eq_zero C
      rw [h0]
      simp only [Nat.cast_zero, Int.cast_zero, zero_sub, Nat.cast_zero] at *
      rw [zero_div]
      linarith
    · have hn := num_chunks_pos D C hC hD
      have h2 := num_chunks_pred_mul_lt D C hC hn
      rw [lt_div_iff₀ hCQ]
      have hcast : ((num_chunks D C : ℤ) : ℚ) - 1 = ((num_chunks D C - 1 : ℕ) : ℚ) := by
        push_cast [Nat.cast_sub hn]
        ring
      rw [hcast]
      have : ((C * (num_chunks D C - 1) : ℕ) : ℚ) < ((D : ℕ) : ℚ) := by exact_mod_cast h2
      push_cast at this ⊢
      linarith
  · have h1 := num_chunks_mul_ge D C hC
    rw [div_le_iff₀ hCQ]
    have : ((D : ℕ) : ℚ) ≤ ((C * num_chunks D C : ℕ) : ℚ) := by exact_mod_cast h1
    push_cast at this ⊢
    linarith

theorem split_audio_get (D C : Nat) (i : Nat) (hi : i < (split_audio D C).length) :
    (split_audio D C).get ⟨i, hi⟩ = (i * C, min ((i + 1) * C) D) := by
  simp [split_audio] at hi ⊢

theorem split_audio_length (D C : Nat) : (split_audio D C).length = num_chunks D C := by
  simp [split_audio]

/-- C1: `get_chunk_duration` returns `floor(0.8 * (MAX_CHUNK_SIZE / (1024*1024)) * 60000)`
milliseconds (= 960000 for the configured 20 MiB maximum), and the `file_size`
argument does not influence the result. -/
theorem get_chunk_duration_spec (S : Nat) :
    get_chunk_duration S
        = Int.floor ((0.8 : ℚ) * ((MAX_CHUNK_SIZE : ℚ) / (1024 * 1024)) * 60000)
      ∧ get_chunk_duration S = 960000
      ∧ ∀ S' : Nat, get_chunk_duration S = get_chunk_duration S' := by
  have harg : ((MAX_CHUNK_SIZE : ℚ) / 1024 / 1024 * 0.8) * 60 * 1000 = ((960000 : ℤ) : ℚ) := by
    norm_num [MAX_CHUNK_SIZE]
  have harg' : (0.8 : ℚ) * ((MAX_CHUNK_SIZE : ℚ) / (1024 * 1024)) * 60000 = ((960000 : ℤ) : ℚ) := by
    norm_num [MAX_CHUNK_SIZE]
  have hval : get_chunk_duration S = 960000 := by
    unfold get_chunk_duration
    rw [harg, Int.floor_intCast]
  refine ⟨?_, hval, fun S' => rfl⟩
  rw [harg', Int.floor_intCast, hval]

theorem window_start_lt_D (D C : Nat) (hC : 0 < C) (i : Nat)
    (hi : i < num_chunks D C) : i * C < D := by
  have hn : 0 < num_chunks D C := Nat.lt_of_le_of_lt (Nat.zero_le i) hi
  have h2 := num_chunks_pred_mul_lt D C hC hn
  calc i * C ≤ (num_chunks D C - 1) * C := Nat.mul_le_mul_right C (by omega)
    _ = C * (num_chunks D C - 1) := Nat.mul_comm _ _
    _ < D := h2

/-- C2: for every total duration `D` and chunk duration `C > 0`, `split_audio`
produces exactly `ceil (D / C)` windows; window `i` covers
`[i*C, min ((i+1)*C) D)`, all windows before the last have length exactly `C`,
the last has length `D - C * (count - 1)`, consecutive windows abut, and the
first starts at `0`, so the windows reconstruct `[0, D)` with no gaps or
overlaps; the single-window case is the same general formula. -/
theorem split_audio_meets_SplitSpec (D C : Nat) (hC : 0 < C) : SplitSpec D C := by
  have hlen := split_audio_length D C
  refine ⟨?_, ?_, ?_, ?_, ?_⟩
  · rw [hlen]
    exact num_chunks_eq_ceil D C hC
  · intro i hi
    have hi' : i < num_chunks D C := by rw [← hlen]; exact hi
    rw [split_audio_get D C i hi]
    refine ⟨rfl, ?_, ?_, ?_⟩
    · intro hsucc
      have hsucc' : i + 1 < num_chunks D C := by rw [← hlen]; exact hsucc
      have : (i + 1) * C < D := window_start_lt_D D C hC (i + 1) hsucc'
      simp [Nat.min_eq_left (Nat.le_of_lt this)]
    · intro hlast
      have hge := num_chunks_mul_ge D C hC
      have hip : i + 1 = num_chunks D C := by
        rw [hlen] at hlast
        omega
      have : D ≤ (i + 1) * C := by
        rw [hip, Nat.mul_comm]
        exact hge
      simp [Nat.min_eq_right this]
    · have h1 : i * C < (i + 1) * C := by
        exact (Nat.mul_lt_mul_right hC).mpr (by omega)
      have h2 : i * C < D := window_start_lt_D D C hC i hi'
      simp only [lt_min_iff]
      exact ⟨h1, h2⟩
  · intro i hi
    have hi' : i + 1 < num_chunks D C := by rw [← hlen]; exact hi
    rw [split_audio_get D C i (Nat.lt_of_succ_lt hi), split_audio_get D C (i + 1) hi]
    have : (i + 1) * C < D := window_start_lt_D D C hC (i + 1) hi'
    simp [Nat.min_eq_left (Nat.le_of_lt this)]
  · intro hne
    rw [split_audio_get D C 0 hne]
    simp
  · intro hne
    have hne' : 0 < num_chunks D C := by rw [← hlen]; exact hne
    have hge := num_chunks_mul_ge D C hC
    rw [split_audio_get D C ((split_audio D C).length - 1) (by omega)]
    have hlast : ((split_audio D C).length - 1) + 1 = num_chunks D C := by omega
    have hDle : D ≤ (((split_audio D C).length - 1) + 1) * C := by
      rw [hlast, Nat.mul_comm]
      exact hge
    simp only [Nat.min_eq_right hDle]
    rw [Nat.mul_comm]

/-- Witness for C2 at `D = 5`, `C = 2`. -/
theorem split_audio_meets_SplitSpec_witness : 0 < 2 ∧ SplitSpec 5 2 :=
  ⟨by decide, split_audio_meets_SplitSpec 5 2 (by decide)⟩

/-! ### Theorems: decimal formatting and the result-numbering regex -/

theorem digitChar_val (d : Nat) (h : d < 10) :
    charVal (digitChar d) = d ∧ (digitChar d).isDigit = true := by
  interval_cases d <;> exact ⟨by decide, by decide⟩

theorem parseDigits_append_singleton (a : List Char) (c : Char) :
    parseDigits (a ++ [c]) = parseDigits a * 10 + charVal c := by
  unfold parseDigits
  rw [List.foldl_append]
  rfl

theorem natDigitsAux_props : ∀ fuel n, n < fuel →
    natDigitsAux fuel n ≠ []
    ∧ (∀ c ∈ natDigitsAux fuel n, c.isDigit = true)
    ∧ parseDigits (natDigitsAux fuel n) = n := by
  intro fuel
  induction fuel with
  | zero => intro n hn; omega
  | succ fuel ih =>
    intro n hn
    by_cases h10 : n < 10
    · simp only [natDigitsAux, if_pos h10]
      obtain ⟨hv, hd⟩ := digitChar_val n h10
      refine ⟨by simp, ?_, ?_⟩
      · intro c hc
        simp only [List.mem_singleton] at hc
        subst hc
        exact hd
      · rw [show parseDigits [digitChar n] = 0 * 10 + charVal (digitChar n) from rfl, hv]
        omega
    · simp only [natDigitsAux, if_neg h10]
      have hm : n / 10 < fuel := by
        have := Nat.div_lt_self (show 0 < n by omega) (show 1 < 10 by omega)
        omega
      obtain ⟨hne, hdig, hparse⟩ := ih (n / 10) hm
      obtain ⟨hv, hd⟩ := digitChar_val (n % 10) (Nat.mod_lt _ (by omega))
      refine ⟨by simp, ?_, ?_⟩
      · intro c hc
        rcases List.mem_append.mp hc with h | h
        · exact hdig c h
        · simp only [List.mem_singleton] at h
          subst h
          exact hd
      · rw [parseDigits_append_singleton, hparse, hv]
        have := Nat.div_add_mod n 10
        omega

theorem natDigits_props (n : Nat) :
    natDigits n ≠ []
    ∧ (∀ c ∈ natDigits n, c.isDigit = true)
    ∧ parseDigits (natDigits n) = n :=
  natDigitsAux_props (n + 1) n (by omega)

theorem parseDigits_cons_zero (l : List Char) : parseDigits ('0' :: l) = parseDigits l := by
  show List.foldl _ (0 * 10 + charVal '0') l = List.foldl _ 0 l
  have h : 0 * 10 + charVal '0' = 0 := by decide
  rw [h]

theorem parseDigits_replicate_zero (k : Nat) (ds : List Char) :
    parseDigits (List.replicate k '0' ++ ds) = parseDigits ds := by
  induction k with
  | zero => simp
  | succ k ih =>
    rw [List.replicate_succ, List.cons_append, parseDigits_cons_zero]
    exact ih

theorem pad3_props (n : Nat) :
    pad3 n ≠ []
    ∧ (∀ c ∈ pad3 n, c.isDigit = true)
    ∧ parseDigits (pad3 n) = n
    ∧ 3 ≤ (pad3 n).length := by
  obtain ⟨hne, hdig, hparse⟩ := natDigits_props n
  unfold pad3
  refine ⟨?_, ?_, ?_, ?_⟩
  · simp [List.append_eq_nil, hne]
  · intro c hc
    rcases List.mem_append.mp hc with h | h
    · have hc0 : c = '0' := List.eq_of_mem_replicate h
      subst hc0
      decide
    · exact hdig c h
  · rw [parseDigits_replicate_zero, hparse]
  · have hlen : (natDigits n).length ≥ 1 := by
      cases hnd : natDigits n with
      | nil => exact absurd hnd hne
      | cons a l => simp
    simp only [List.length_append, List.length_replicate]
    omega

theorem isPrefixOf_append_self (a b : List Char) : a.isPrefixOf (a ++ b) = true := by
  rw [List.isPrefixOf_iff_prefix]
  exact List.prefix_append a b

theorem isSuffixOf_append_self (a b : List Char) : a.isSuffixOf (b ++ a) = true := by
  rw [List.isSuffixOf_iff_suffix]
  exact List.suffix_append b a

theorem takeWhile_all_append_cons (p : Char → Bool) (a t : List Char) (c : Char)
    (ha : ∀ x ∈ a, p x = true) (hc : p c = false) :
    (a ++ c :: t).takeWhile p = a := by
  induction a with
  | nil => simp [List.takeWhile_cons, hc]
  | cons x xs ih =>
    have hx : p x = true := ha x (List.mem_cons_self x xs)
    simp only [List.cons_append, List.takeWhile_cons, hx, if_true]
    rw [ih (fun y hy => ha y (List.mem_cons_of_mem x hy))]

theorem matchFrom_result (n : Nat) :
    matchFrom (chars "result" ++ (pad3 n ++ chars ".txt")) = some n := by
  obtain ⟨hne, hdig, hparse, _⟩ := pad3_props n
  have hdrop : (chars "result" ++ (pad3 n ++ chars ".txt")).drop 6 = pad3 n ++ chars ".txt" := by
    rw [show (6 : Nat) = (chars "result").length from rfl]
    exact List.drop_left _ _
  have htake : (pad3 n ++ chars ".txt").takeWhile Char.isDigit = pad3 n := by
    rw [show chars ".txt" = '.' :: chars "txt" from rfl]
    exact takeWhile_all_append_cons Char.isDigit (pad3 n) (chars "txt") '.' hdig (by decide)
  have hdrop2 : (pad3 n ++ chars ".txt").drop (pad3 n).length = chars ".txt" :=
    List.drop_left _ _
  have hcond : (!(pad3 n).isEmpty && (chars ".txt").isPrefixOf (chars ".txt")) = true := by
    rw [Bool.and_eq_true]
    constructor
    · rw [Bool.not_eq_eq_eq_not]
      simp [List.isEmpty_iff, hne]
    · rw [List.isPrefixOf_iff_prefix]
  unfold matchFrom
  rw [if_pos (by rw [isPrefixOf_append_self])]
  simp only [hdrop, htake, hdrop2]
  rw [if_pos hcond, hparse]

theorem searchResultNum_of_matchFrom (l : List Char) (n : Nat)
    (h : matchFrom l = some n) : searchResultNum l = some n := by
  cases l with
  | nil =>
    rw [show matchFrom [] = none from rfl] at h
    exact absurd h (by simp)
  | cons c cs =>
    unfold searchResultNum
    rw [h]

theorem le_foldl_max_init : ∀ (l : List Nat) (a : Nat), a ≤ l.foldl Nat.max a := by
  intro l
  induction l with
  | nil => intro a; exact Nat.le_refl a
  | cons c l ih =>
    intro a
    calc a ≤ Nat.max a c := Nat.le_max_left a c
      _ ≤ (l.foldl Nat.max (Nat.max a c)) := ih (Nat.max a c)

theorem le_foldl_max_mem : ∀ (l : List Nat) (a b : Nat), b ∈ l → b ≤ l.foldl Nat.max a := by
  intro l
  induction l with
  | nil => intro a b hb; exact absurd hb (List.not_mem_nil b)
  | cons c l ih =>
    intro a b hb
    rcases List.mem_cons.mp hb with h | h
    · subst h
      calc b ≤ Nat.max a b := Nat.le_max_right a b
        _ ≤ l.foldl Nat.max (Nat.max a b) := le_foldl_max_init l _
    · exact ih (Nat.max a c) b h

theorem foldl_max_init_comm : ∀ (l : List Nat) (a : Nat),
    l.foldl Nat.max a = Nat.max a (l.foldl Nat.max 0) := by
  intro l
  induction l with
  | nil => intro a; simp
  | cons c l ih =>
    intro a
    rw [List.foldl_cons, List.foldl_cons, ih (Nat.max a c), ih (Nat.max 0 c)]
    have h0 : Nat.max 0 c = c := Nat.max_eq_right (Nat.zero_le c)
    have hassoc : Nat.max (Nat.max a c) (l.foldl Nat.max 0)
        = Nat.max a (Nat.max c (l.foldl Nat.max 0)) := Nat.max_assoc a c _
    rw [h0, hassoc]

theorem maxList_cons (a : Nat) (l : List Nat) : maxList (a :: l) = Nat.max a (maxList l) := by
  unfold maxList
  rw [List.foldl_cons, foldl_max_init_comm]
  have h0 : Nat.max 0 a = a := Nat.max_eq_right (Nat.zero_le a)
  rw [h0]

theorem maxList_le_bound (l : List Nat) (b : Nat) (h : ∀ x ∈ l, x ≤ b) : maxList l ≤ b := by
  induction l with
  | nil => exact Nat.zero_le b
  | cons c l ih =>
    rw [maxList_cons]
    exact Nat.max_le.mpr ⟨h c (List.mem_cons_self c l), ih (fun x hx => h x (List.mem_cons_of_mem c hx))⟩

theorem get_next_file_number_eq_pad3 (files : List (List Char)) :
    get_next_file_number files = pad3 (nextNum files) := by
  simp only [get_next_file_number, nextNum]
  by_cases h : (files.filter resultGlobMatch).isEmpty
  · rw [if_pos h, if_pos h]
    decide
  · rw [if_neg h, if_neg h]

theorem searchResultNum_output (files : List (List Char)) :
    searchResultNum (output_filename files) = some (nextNum files) := by
  unfold output_filename
  rw [get_next_file_number_eq_pad3, List.append_assoc]
  exact searchResultNum_of_matchFrom _ _ (matchFrom_result (nextNum files))

theorem resultGlobMatch_output (files : List (List Char)) :
    resultGlobMatch (output_filename files) = true := by
  unfold resultGlobMatch output_filename
  rw [Bool.and_eq_true]
  constructor
  · rw [List.append_assoc]
    exact isPrefixOf_append_self _ _
  · exact isSuffixOf_append_self _ _

theorem nextNum_eq_succ_max (files : List (List Char))
    (h : ¬ ((files.filter resultGlobMatch).filterMap searchResultNum).isEmpty) :
    nextNum files
      = maxList ((files.filter resultGlobMatch).filterMap searchResultNum) + 1 := by
  have hex : ¬ (files.filter resultGlobMatch).isEmpty := by
    intro hc
    rw [List.isEmpty_iff] at hc
    rw [hc] at h
    exact h (by simp)
  simp only [nextNum]
  rw [if_neg hex, if_neg h]

theorem output_filename_not_mem (files : List (List Char)) :
    ∀ f ∈ files, output_filename files ≠ f := by
  intro f hmem heq
  rw [← heq] at hmem
  have hglob := resultGlobMatch_output files
  have hfil : output_filename files ∈ files.filter resultGlobMatch :=
    List.mem_filter.mpr ⟨hmem, hglob⟩
  have hnum : nextNum files ∈ (files.filter resultGlobMatch).filterMap searchResultNum :=
    List.mem_filterMap.mpr ⟨_, hfil, searchResultNum_output files⟩
  have hnumsne : ¬ ((files.filter resultGlobMatch).filterMap searchResultNum).isEmpty := by
    rw [List.isEmpty_iff]
    exact List.ne_nil_of_mem hnum
  have hval := nextNum_eq_succ_max files hnumsne
  have hle : nextNum files
      ≤ maxList ((files.filter resultGlobMatch).filterMap searchResultNum) :=
    le_foldl_max_mem _ 0 _ hnum
  rw [hval] at hle
  exact absurd hle (by omega)

theorem nextNum_cons_output (files : List (List Char)) :
    nextNum (output_filename files :: files) = nextNum files + 1 := by
  have hglob := resultGlobMatch_output files
  have hsearch := searchResultNum_output files
  have hfil : (output_filename files :: files).filter resultGlobMatch
      = output_filename files :: files.filter resultGlobMatch := by
    rw [List.filter_cons, if_pos hglob]
  have hnums : ((output_filename files :: files).filter resultGlobMatch).filterMap searchResultNum
      = nextNum files :: (files.filter resultGlobMatch).filterMap searchResultNum := by
    rw [hfil]
    simp [List.filterMap_cons, hsearch]
  have hlhs : nextNum (output_filename files :: files)
      = maxList (nextNum files :: (files.filter resultGlobMatch).filterMap searchResultNum) + 1 := by
    rw [← hnums]
    apply nextNum_eq_succ_max
    rw [hnums]
    simp
  rw [hlhs, maxList_cons]
  by_cases h : ((files.filter resultGlobMatch).filterMap searchResultNum).isEmpty
  · rw [List.isEmpty_iff] at h
    rw [h]
    have h1 : nextNum files = 1 := by
      simp only [nextNum]
      by_cases hex : (files.filter resultGlobMatch).isEmpty
      · rw [if_pos hex]
      · rw [if_neg hex, h]
        simp
    rw [h1]
    rfl
  · have hval := nextNum_eq_succ_max files h
    rw [hval]
    have hmax : Nat.max (maxList ((files.filter resultGlobMatch).filterMap searchResultNum) + 1)
        (maxList ((files.filter resultGlobMatch).filterMap searchResultNum))
        = maxList ((files.filter resultGlobMatch).filterMap searchResultNum) + 1 :=
      Nat.max_eq_left (by omega)
    rw [hmax]

theorem nextNum_eq_one_of_no_numbers (files : List (List Char))
    (h : ((files.filter resultGlobMatch).filterMap searchResultNum).isEmpty) :
    nextNum files = 1 := by
  simp only [nextNum]
  by_cases hex : (files.filter resultGlobMatch).isEmpty
  · rw [if_pos hex]
  · rw [if_neg hex, if_pos h]

theorem mem_maxList : ∀ l : List Nat, l ≠ [] → maxList l ∈ l := by
  intro l
  induction l with
  | nil => intro h; exact absurd rfl h
  | cons a l ih =>
    intro _
    rw [maxList_cons]
    cases l with
    | nil =>
      have h0 : Nat.max a (maxList []) = a := Nat.max_eq_left (Nat.zero_le a)
      rw [h0]
      exact List.mem_cons_self a []
    | cons b m =>
      by_cases hle : maxList (b :: m) ≤ a
      · have hm : Nat.max a (maxList (b :: m)) = a := Nat.max_eq_left hle
        rw [hm]
        exact List.mem_cons_self _ _
      · have hm : Nat.max a (maxList (b :: m)) = maxList (b :: m) :=
          Nat.max_eq_right (Nat.le_of_lt (Nat.lt_of_not_le hle))
        rw [hm]
        exact List.mem_cons_of_mem a (ih (by simp))

/-! ### Theorems: helper lemmas on the orchestrator model -/

theorem filter_not_contains_superset (l₁ l₂ : List Nat) (h : ∀ x ∈ l₁, x ∈ l₂) :
    l₁.filter (fun f => !(l₂.contains f)) = [] := by
  rw [List.filter_eq_nil_iff]
  intro a ha
  simp [h a ha]

theorem transcribeLoop_eq_filterMap (f : Nat → Option (List Char)) :
    ∀ l : List Nat, transcribeLoop f l = l.filterMap f := by
  intro l
  induction l with
  | nil => rfl
  | cons c cs ih =>
    cases hfc : f c with
    | none => simp [transcribeLoop, hfc, List.filterMap_cons, ih]
    | some t => simp [transcribeLoop, hfc, List.filterMap_cons, ih]

theorem transcribeLoop_none (f : Nat → Option (List Char)) (l : List Nat)
    (h : ∀ c ∈ l, f c = none) : transcribeLoop f l = [] := by
  rw [transcribeLoop_eq_filterMap]
  induction l with
  | nil => rfl
  | cons c cs ih =>
    rw [List.filterMap_cons, h c (List.mem_cons_self c cs)]
    exact ih (fun x hx => h x (List.mem_cons_of_mem c hx))

theorem transcribe_chunk_none_iff (remote : Nat → Except (List Char) (List Char)) (c : Nat) :
    transcribe_chunk remote c = none ↔ ∃ e, remote c = Except.error e := by
  unfold transcribe_chunk
  cases h : remote c with
  | ok t => simp
  | error e => simp

theorem join_space_eq_intercalate :
    ∀ l : List (List Char), join_space l = List.intercalate [' '] l
  | [] => by simp [join_space, List.intercalate]
  | [x] => by simp [join_space, List.intercalate]
  | x :: y :: xs => by
    rw [show join_space (x :: y :: xs) = x ++ ' ' :: join_space (y :: xs) from rfl,
      join_space_eq_intercalate (y :: xs)]
    simp [List.intercalate, List.intersperse_cons_cons]

theorem after_format_ok_fields (env : Env) (disk temps : List Nat) (ctr n : Nat)
    (hs : env.split = SplitOutcome.ok n) :
    (transcribe_audio_after_format env disk temps ctr).ret
        = some (output_filename env.results_files)
    ∧ (transcribe_audio_after_format env disk temps ctr).calls
        = (List.range n).map (fun i => ctr + i)
    ∧ (transcribe_audio_after_format env disk temps ctr).written
        = some (join_space (transcribeLoop (transcribe_chunk env.remote)
            ((List.range n).map (fun i => ctr + i)))) := by
  unfold transcribe_audio_after_format
  rw [hs]
  exact ⟨rfl, rfl, rfl⟩

theorem after_format_raise_fields (env : Env) (disk temps : List Nat) (ctr k : Nat)
    (hs : env.split = SplitOutcome.raiseAfter k) :
    (transcribe_audio_after_format env disk temps ctr).ret = none
    ∧ (transcribe_audio_after_format env disk temps ctr).calls = []
    ∧ (transcribe_audio_after_format env disk temps ctr).written = none := by
  unfold transcribe_audio_after_format
  rw [hs]
  exact ⟨rfl, rfl, rfl⟩

theorem after_format_cleanup (env : Env) (disk temps : List Nat) (ctr : Nat)
    (h : ∀ x ∈ disk, x ∈ temps)
    (hsplit : ∀ k, env.split ≠ SplitOutcome.raiseAfter (k + 1)) :
    (transcribe_audio_after_format env disk temps ctr).leaked = [] := by
  unfold transcribe_audio_after_format
  cases hs : env.split with
  | raiseAfter k =>
    cases k with
    | zero =>
      simp only [List.range_zero, List.map_nil, List.append_nil]
      exact filter_not_contains_superset disk temps h
    | succ k => exact absurd hs (hsplit k)
  | ok n =>
    apply filter_not_contains_superset
    intro x hx
    rcases List.mem_append.mp hx with hd | hc
    · exact List.mem_append.mpr (Or.inl (h x hd))
    · exact List.mem_append.mpr (Or.inr hc)

theorem transcribe_audio_eq_after_format (env : Env)
    (hfile : env.file_exists = true)
    (hformat : is_supported_openai_format env.audio_filename = true
        ∨ env.conv = ConvOutcome.ok) :
    (is_supported_openai_format env.audio_filename = true
      ∧ transcribe_audio env = transcribe_audio_after_format env [] [] 0)
    ∨ (is_supported_openai_format env.audio_filename = false
      ∧ transcribe_audio env = transcribe_audio_after_format env [0] [0] 1) := by
  unfold transcribe_audio
  rw [if_neg (by rw [hfile]; simp)]
  by_cases hfmt : is_supported_openai_format env.audio_filename
  · left
    exact ⟨hfmt, by rw [if_pos hfmt]⟩
  · right
    rcases hformat with h | h
    · exact absurd h hfmt
    · refine ⟨by simpa using hfmt, ?_⟩
      rw [if_neg hfmt, h]
      rfl

/-! ### Theorems settling the remaining claims -/

/-- C3 counterexample: when the source needs transcoding and `audio.export`
raises inside `convert_to_mp3` after its temporary file was created, that
file is never recorded in `temp_files` and survives the run — a temporary
artifact is not removed before the run ends. -/
theorem c3_counterexample :
    (transcribe_audio env_c3).leaked = [0] ∧ ([0] : List Nat) ≠ [] :=
  ⟨by decide, by decide⟩

/-- C3 (amended): every temporary artifact recorded in the orchestrator's
`temp_files` list is removed on every exit path (success, missing input,
failed or skipped conversion, per-chunk transcription failures); but the
temporary file created inside `convert_to_mp3` before its export fails, and
chunk files already exported when `split_audio` raises, are never recorded
and are not removed. -/
theorem c3_cleanup (env : Env)
    (hconv : is_supported_openai_format env.audio_filename = true
        ∨ env.conv ≠ ConvOutcome.failExport)
    (hsplit : ∀ k, env.split ≠ SplitOutcome.raiseAfter (k + 1)) :
    (transcribe_audio env).leaked = [] := by
  unfold transcribe_audio
  by_cases hfe : env.file_exists = false
  · rw [if_pos hfe]
  · rw [if_neg hfe]
    by_cases hfmt : is_supported_openai_format env.audio_filename
    · rw [if_pos hfmt]
      exact after_format_cleanup env [] [] 0 (by simp) hsplit
    · rw [if_neg hfmt]
      cases hc : env.conv with
      | failDecode => rfl
      | failExport =>
        rcases hconv with h | h
        · exact absurd h hfmt
        · exact absurd hc h
      | ok => exact after_format_cleanup env [0] [0] 1 (by simp) hsplit

/-- Witness for C3 (amended) on a run with transcoding and a failed chunk. -/
theorem c3_cleanup_witness :
    (is_supported_openai_format env_c3w.audio_filename = true
        ∨ env_c3w.conv ≠ ConvOutcome.failExport)
    ∧ (∀ k, env_c3w.split ≠ SplitOutcome.raiseAfter (k + 1))
    ∧ (transcribe_audio env_c3w).leaked = [] :=
  ⟨Or.inr (by decide), fun _ h => SplitOutcome.noConfusion h,
    c3_cleanup env_c3w (Or.inr (by decide)) (fun _ h => SplitOutcome.noConfusion h)⟩

/-- C4 counterexample: with an empty results directory and source
`talk.mp3`, the name `talk.txt` is free, yet the pipeline names its output
`result001.txt`, not `talk.txt`: the output name is not derived from the
source filename. -/
theorem c4_counterexample :
    (transcribe_audio env_c4).ret = some (chars "result001.txt")
    ∧ some (chars "result001.txt") ≠ some (chars "talk.txt")
    ∧ chars "talk.txt" ∉ ([] : List (List Char)) :=
  ⟨by decide, by decide, by decide⟩

/-- C4 (amended): the output file is named `result<NNN>.txt` where `NNN` is
`get_next_file_number` of the results directory (not a name derived from the
source filename); the chosen name never equals any file already present in
the results directory, and whenever `transcribe_audio` returns a filename it
is exactly this one, for any source file. -/
theorem output_filename_spec (files : List (List Char)) :
    output_filename files = chars "result" ++ get_next_file_number files ++ chars ".txt"
  ∧ (∀ f ∈ files, output_filename files ≠ f)
  ∧ (∀ env : Env, env.results_files = files →
      ∀ r, (transcribe_audio env).ret = some r → r = output_filename files) := by
  refine ⟨rfl, output_filename_not_mem files, ?_⟩
  intro env henv r hr
  subst henv
  unfold transcribe_audio at hr
  by_cases hfe : env.file_exists = false
  · rw [if_pos hfe] at hr
    exact Option.noConfusion hr
  · rw [if_neg hfe] at hr
    by_cases hfmt : is_supported_openai_format env.audio_filename
    · rw [if_pos hfmt] at hr
      cases hs : env.split with
      | raiseAfter k =>
        rw [(after_format_raise_fields env [] [] 0 k hs).1] at hr
        exact Option.noConfusion hr
      | ok n =>
        rw [(after_format_ok_fields env [] [] 0 n hs).1] at hr
        exact (Option.some.inj hr).symm
    · rw [if_neg hfmt] at hr
      cases hc : env.conv with
      | failDecode =>
        rw [hc] at hr
        exact Option.noConfusion hr
      | failExport =>
        rw [hc] at hr
        exact Option.noConfusion hr
      | ok =>
        rw [hc] at hr
        cases hs : env.split with
        | raiseAfter k =>
          rw [show (match convert_to_mp3 ConvOutcome.ok 0 with
              | (none, created) =>
                ({ ret := none, written := none, calls := [], leaked := created } : RunResult)
              | (some converted_path, created) =>
                transcribe_audio_after_format env created [converted_path] 1)
              = transcribe_audio_after_format env [0] [0] 1 from rfl,
            (after_format_raise_fields env [0] [0] 1 k hs).1] at hr
          exact Option.noConfusion hr
        | ok n =>
          rw [show (match convert_to_mp3 ConvOutcome.ok 0 with
              | (none, created) =>
                ({ ret := none, written := none, calls := [], leaked := created } : RunResult)
              | (some converted_path, created) =>
                transcribe_audio_after_format env created [converted_path] 1)
              = transcribe_audio_after_format env [0] [0] 1 from rfl,
            (after_format_ok_fields env [0] [0] 1 n hs).1] at hr
          exact (Option.some.inj hr).symm

/-- Witness for C4 (amended): the chosen name avoids the one existing
result file. -/
theorem output_filename_spec_witness :
    (chars "result001.txt" ∈ [chars "result001.txt"])
    ∧ output_filename [chars "result001.txt"] ≠ chars "result001.txt" :=
  ⟨by decide,
    (output_filename_spec [chars "result001.txt"]).2.1 (chars "result001.txt") (by decide)⟩

/-- C9: `get_next_file_number` returns the zero-padded (width ≥ 3) decimal
representation of 1 + the maximum numeric suffix among files matching
`result<digits>.txt` in the results listing (1 when none match); the
resulting `result<NNN>.txt` never equals an existing matching file, and
prepending the chosen output file to the listing increases the next number
by exactly one, so successive runs choose strictly increasing numbers. -/
theorem get_next_file_number_spec (files : List (List Char)) :
    get_next_file_number files = pad3 (nextNum files)
  ∧ parseDigits (get_next_file_number files) = nextNum files
  ∧ 3 ≤ (get_next_file_number files).length
  ∧ (∀ f ∈ files, resultGlobMatch f = true →
      ∀ n, searchResultNum f = some n → n < nextNum files)
  ∧ (nextNum files = 1
      ∨ ∃ f ∈ files, resultGlobMatch f = true
          ∧ searchResultNum f = some (nextNum files - 1))
  ∧ (∀ f ∈ files, resultGlobMatch f = true → searchResultNum f ≠ none →
      output_filename files ≠ f)
  ∧ nextNum (output_filename files :: files) = nextNum files + 1 := by
  have hpad := get_next_file_number_eq_pad3 files
  obtain ⟨_, _, hparse, hlen⟩ := pad3_props (nextNum files)
  refine ⟨hpad, by rw [hpad, hparse], by rw [hpad]; exact hlen, ?_, ?_, ?_, nextNum_cons_output files⟩
  · intro f hf hglob n hsearch
    have hnum : n ∈ (files.filter resultGlobMatch).filterMap searchResultNum :=
      List.mem_filterMap.mpr ⟨f, List.mem_filter.mpr ⟨hf, hglob⟩, hsearch⟩
    have hne : ¬ ((files.filter resultGlobMatch).filterMap searchResultNum).isEmpty := by
      rw [List.isEmpty_iff]
      exact List.ne_nil_of_mem hnum
    have hval := nextNum_eq_succ_max files hne
    have hle : n ≤ maxList ((files.filter resultGlobMatch).filterMap searchResultNum) :=
      le_foldl_max_mem _ 0 _ hnum
    omega
  · by_cases hne : ((files.filter resultGlobMatch).filterMap searchResultNum).isEmpty
    · exact Or.inl (nextNum_eq_one_of_no_numbers files hne)
    · right
      have hval := nextNum_eq_succ_max files hne
      have hmem : maxList ((files.filter resultGlobMatch).filterMap searchResultNum)
          ∈ (files.filter resultGlobMatch).filterMap searchResultNum := by
        apply mem_maxList
        intro hnil
        rw [List.isEmpty_iff] at hne
        exact hne hnil
      obtain ⟨f, hf, hsearch⟩ := List.mem_filterMap.mp hmem
      obtain ⟨hmemf, hglob⟩ := List.mem_filter.mp hf
      refine ⟨f, hmemf, hglob, ?_⟩
      rw [hval]
      simpa using hsearch
  · intro f hf _ _
    exact output_filename_not_mem files f hf

/-- Witness for C9 on a one-file results directory. -/
theorem get_next_file_number_spec_witness :
    (chars "result007.txt" ∈ [chars "result007.txt"])
    ∧ resultGlobMatch (chars "result007.txt") = true
    ∧ searchResultNum (chars "result007.txt") = some 7
    ∧ 7 < nextNum [chars "result007.txt"] :=
  ⟨by decide, by decide, by decide,
    (get_next_file_number_spec [chars "result007.txt"]).2.2.2.1
      (chars "result007.txt") (by decide) (by decide) 7 (by decide)⟩

/-- C5: a failed chunk is skipped with no placeholder and the loop
continues: the accumulated fragments are exactly the successful ones in
chunk order (`filterMap`); `transcribe_chunk` signals failure by `none`
exactly when the remote call raised; dropping a failed chunk leaves the
loop's output unchanged; Python's `" ".join` is single-space interleaving;
and on every run that reaches the loop the written content is the
space-join of the successful fragments of the submitted chunks, in order. -/
theorem c5_skip_failed_chunks :
    (∀ (f : Nat → Option (List Char)) (l : List Nat), transcribeLoop f l = l.filterMap f)
  ∧ (∀ (remote : Nat → Except (List Char) (List Char)) (c : Nat),
      transcribe_chunk remote c = none ↔ ∃ e, remote c = Except.error e)
  ∧ (∀ (f : Nat → Option (List Char)) (l1 l2 : List Nat) (c : Nat), f c = none →
      transcribeLoop f (l1 ++ c :: l2) = transcribeLoop f (l1 ++ l2))
  ∧ (∀ l : List (List Char), join_space l = List.intercalate [' '] l)
  ∧ (∀ (env : Env) (n : Nat), env.file_exists = true →
      (is_supported_openai_format env.audio_filename = true ∨ env.conv = ConvOutcome.ok) →
      env.split = SplitOutcome.ok n →
      (transcribe_audio env).written
        = some (join_space
            (((transcribe_audio env).calls).filterMap (transcribe_chunk env.remote)))) := by
  refine ⟨transcribeLoop_eq_filterMap, transcribe_chunk_none_iff, ?_,
    join_space_eq_intercalate, ?_⟩
  · intro f l1 l2 c hc
    rw [transcribeLoop_eq_filterMap, transcribeLoop_eq_filterMap, List.filterMap_append,
      List.filterMap_append, List.filterMap_cons, hc]
  · intro env n hfile hformat hsplit
    rcases transcribe_audio_eq_after_format env hfile hformat with ⟨_, heq⟩ | ⟨_, heq⟩ <;>
      · rw [heq]
        obtain ⟨_, hcalls, hwritten⟩ := after_format_ok_fields env _ _ _ n hsplit
        rw [hwritten, hcalls, transcribeLoop_eq_filterMap]

/-- Witness for C5: two chunks, the second fails; the written content is the
join of the surviving fragments. -/
theorem c5_skip_failed_chunks_witness :
    env_c5.file_exists = true
    ∧ (is_supported_openai_format env_c5.audio_filename = true
        ∨ env_c5.conv = ConvOutcome.ok)
    ∧ env_c5.split = SplitOutcome.ok 2
    ∧ (transcribe_audio env_c5).written
        = some (join_space
            (((transcribe_audio env_c5).calls).filterMap (transcribe_chunk env_c5.remote))) :=
  ⟨rfl, Or.inl (by decide), rfl,
    c5_skip_failed_chunks.2.2.2.2 env_c5 2 rfl (Or.inl (by decide)) rfl⟩

/-- C6: `convert_to_mp3` returns the no-artifact signal `None` on any
decode or export failure instead of raising; and when transcoding was
required and it returned `None`, `transcribe_audio` returns `None` without
splitting and without any transcription call or write. -/
theorem c6_convert_failure_aborts :
    (∀ (out : ConvOutcome) (tmp : Nat), out ≠ ConvOutcome.ok →
      (convert_to_mp3 out tmp).1 = none)
  ∧ (∀ env : Env, is_supported_openai_format env.audio_filename = false →
      env.conv ≠ ConvOutcome.ok →
      (transcribe_audio env).ret = none ∧ (transcribe_audio env).calls = []
        ∧ (transcribe_audio env).written = none) := by
  constructor
  · intro out tmp hne
    cases out with
    | ok => exact absurd rfl hne
    | failDecode => rfl
    | failExport => rfl
  · intro env hfmt hconv
    unfold transcribe_audio
    by_cases hfe : env.file_exists = false
    · rw [if_pos hfe]
      exact ⟨rfl, rfl, rfl⟩
    · rw [if_neg hfe, if_neg (by rw [hfmt]; simp)]
      cases hc : env.conv with
      | ok => exact absurd hc hconv
      | failDecode => exact ⟨rfl, rfl, rfl⟩
      | failExport => exact ⟨rfl, rfl, rfl⟩

/-- Witness for C6 on a decoder failure for an `.aac` source. -/
theorem c6_convert_failure_aborts_witness :
    is_supported_openai_format env_c6.audio_filename = false
    ∧ env_c6.conv ≠ ConvOutcome.ok
    ∧ (transcribe_audio env_c6).ret = none ∧ (transcribe_audio env_c6).calls = []
    ∧ (transcribe_audio env_c6).written = none := by
  refine ⟨by decide, by decide, ?_⟩
  exact (c6_convert_failure_aborts.2 env_c6 (by decide) (by decide))

/-- C7: the per-chunk loop never aborts the run: on every run reaching the
loop the returned value is the output filename; `n` chunks mean `n` remote
calls; and when every chunk fails the result file is still written, with
empty contents, and the filename is still returned. -/
theorem c7_all_chunks_fail_writes_empty (env : Env) (n : Nat)
    (hfile : env.file_exists = true)
    (hformat : is_supported_openai_format env.audio_filename = true
        ∨ env.conv = ConvOutcome.ok)
    (hsplit : env.split = SplitOutcome.ok n) :
    (transcribe_audio env).ret = some (output_filename env.results_files)
  ∧ (transcribe_audio env).calls.length = n
  ∧ ((∀ c, transcribe_chunk env.remote c = none) →
      (transcribe_audio env).written = some []
        ∧ (transcribe_audio env).ret ≠ none) := by
  rcases transcribe_audio_eq_after_format env hfile hformat with ⟨_, heq⟩ | ⟨_, heq⟩ <;>
    · rw [heq]
      obtain ⟨hret, hcalls, hwritten⟩ := after_format_ok_fields env _ _ _ n hsplit
      refine ⟨hret, by rw [hcalls]; simp, ?_⟩
      intro hall
      refine ⟨?_, by rw [hret]; simp⟩
      rw [hwritten, transcribeLoop_none _ _ (fun c _ => hall c)]
      rfl

/-- Witness for C7: three chunks, all of whose remote calls fail. -/
theorem c7_all_chunks_fail_writes_empty_witness :
    env_c7.file_exists = true
    ∧ (is_supported_openai_format env_c7.audio_filename = true
        ∨ env_c7.conv = ConvOutcome.ok)
    ∧ env_c7.split = SplitOutcome.ok 3
    ∧ (transcribe_audio env_c7).ret = some (output_filename env_c7.results_files)
    ∧ (transcribe_audio env_c7).written = some [] := by
  refine ⟨rfl, Or.inl (by decide), rfl, ?_, ?_⟩
  · exact (c7_all_chunks_fail_writes_empty env_c7 3 rfl (Or.inl (by decide)) rfl).1
  · exact ((c7_all_chunks_fail_writes_empty env_c7 3 rfl (Or.inl (by decide)) rfl).2.2
      (fun c => rfl)).1

/-- C8: `is_supported_openai_format` accepts exactly the filenames whose
lowercased extension lies in the ten-element direct-API set, and
`list_audio_files` accepts exactly the files whose lowercased extension
lies in that set extended by `.aac`. -/
theorem c8_format_sets :
    (∀ filename : List Char,
        is_supported_openai_format filename = true
          ↔ (pathSuffix filename).map Char.toLower ∈ supported_formats)
  ∧ (∀ e : List Char,
      e ∈ listing_supported_formats ↔ e ∈ supported_formats ∨ e = chars ".aac")
  ∧ (∀ (dir_files : List (List Char)) (file : List Char),
      file ∈ list_audio_files dir_files
        ↔ file ∈ dir_files
          ∧ ((pathSuffix file).map Char.toLower ∈ supported_formats
              ∨ (pathSuffix file).map Char.toLower = chars ".aac")) := by
  have hmem : ∀ (l : List (List Char)) (x : List Char), l.contains x = true ↔ x ∈ l := by
    intro l x
    simp
  refine ⟨?_, ?_, ?_⟩
  · intro filename
    unfold is_supported_openai_format
    exact hmem _ _
  · intro e
    simp only [listing_supported_formats, supported_formats, List.mem_cons,
      List.not_mem_nil, or_false]
    tauto
  · intro dir_files file
    unfold list_audio_files
    rw [List.mem_filter, hmem]
    constructor
    · rintro ⟨hm, hs⟩
      refine ⟨hm, ?_⟩
      revert hs
      simp only [listing_supported_formats, supported_formats, List.mem_cons,
        List.not_mem_nil, or_false]
      tauto
    · rintro ⟨hm, hs⟩
      refine ⟨hm, ?_⟩
      revert hs
      simp only [listing_supported_formats, supported_formats, List.mem_cons,
        List.not_mem_nil, or_false]
      tauto

/-- C10: a zero total duration yields zero windows (`ceil (0 / C) = 0`), and
a run whose split produced zero chunks makes no transcription call, still
writes an empty result file, and still returns the output filename. -/
theorem c10_zero_duration (C : Nat) (env : Env) (hC : 0 < C)
    (hfile : env.file_exists = true)
    (hformat : is_supported_openai_format env.audio_filename = true
        ∨ env.conv = ConvOutcome.ok)
    (hsplit : env.split = SplitOutcome.ok 0) :
    split_audio 0 C = []
  ∧ (transcribe_audio env).calls = []
  ∧ (transcribe_audio env).written = some []
  ∧ (transcribe_audio env).ret = some (output_filename env.results_files) := by
  refine ⟨by simp [split_audio, num_chunks_eq_zero], ?_⟩
  rcases transcribe_audio_eq_after_format env hfile hformat with ⟨_, heq⟩ | ⟨_, heq⟩ <;>
    · rw [heq]
      obtain ⟨hret, hcalls, hwritten⟩ := after_format_ok_fields env _ _ _ 0 hsplit
      refine ⟨by rw [hcalls]; simp, ?_, hret⟩
      rw [hwritten]
      rfl

/-- Witness for C10 with the configured 960000 ms chunk duration. -/
theorem c10_zero_duration_witness :
    0 < 960000
    ∧ env_c10.file_exists = true
    ∧ (is_supported_openai_format env_c10.audio_filename = true
        ∨ env_c10.conv = ConvOutcome.ok)
    ∧ env_c10.split = SplitOutcome.ok 0
    ∧ split_audio 0 960000 = []
    ∧ (transcribe_audio env_c10).calls = []
    ∧ (transcribe_audio env_c10).written = some []
    ∧ (transcribe_audio env_c10).ret = some (output_filename env_c10.results_files) := by
  have h := c10_zero_duration 960000 env_c10 (by decide) rfl (Or.inl (by decide)) rfl
  exact ⟨by decide, rfl, Or.inl (by decide), rfl, h.1, h.2.1, h.2.2.1, h.2.2.2⟩

end Raspoznavalka
